import Mathlib

/-!
Shallow embedding of the contrastive-learning core of the clrcmd repository
(the loss and pooling functions of src/simcse/models.py, plus the ESimCSE
dataset facts recorded in src/tests/simcse/data/test_dataset.py), together
with proofs checking the natural-language specification against it.

Tensors are modelled as `Fin`-indexed families of reals, batches of token ids
as `Fin B → Fin L → ℕ`, and fallible torch code as `Except`.
-/

namespace Clrcmd

/-- Error outcomes of the fallible paths in models.py: a failed
`assert torch.equal(...)` on the gathered pair token ids, a failed
`assert pairs is not None`, and the `torch.stack` failure on an empty list of
per-group losses. -/
inductive TokenLossError where
  | pairMismatch
  | pairsMissing
  | emptyGroupList
  deriving DecidableEq

/-- Dot product of two `d`-dimensional real vectors. -/
noncomputable def dot {d : ℕ} (x y : Fin d → ℝ) : ℝ := ∑ i, x i * y i

/-- Euclidean norm used by `F.cosine_similarity`. -/
noncomputable def l2norm {d : ℕ} (x : Fin d → ℝ) : ℝ := Real.sqrt (dot x x)

/-- The `eps = 1e-8` default of `F.cosine_similarity`. -/
noncomputable def cosEps : ℝ := 1e-8

/-- Model of `F.cosine_similarity(x, y, dim, eps)`: the dot product divided by
`max(norm(x) * norm(y), eps)`. -/
noncomputable def cosineSimilarity {d : ℕ} (x y : Fin d → ℝ) : ℝ :=
  dot x y / max (l2norm x * l2norm y) cosEps

/-- One row of `F.cross_entropy` with integer class labels: the negative
log-softmax of the logits at the label. -/
noncomputable def cross_entropy_row {n : ℕ} (logits : Fin n → ℝ) (label : Fin n) : ℝ :=
  -Real.log (Real.exp (logits label) / ∑ j, Real.exp (logits j))

/-- Model of `F.cross_entropy(logits, labels)` with the default mean reduction over
rows. -/
noncomputable def cross_entropy {n m : ℕ} (logits : Fin n → Fin m → ℝ)
    (labels : Fin n → Fin m) : ℝ :=
  (∑ i, cross_entropy_row (logits i) (labels i)) / n

/-- Model of `compute_loss_simclr` (src/simcse/models.py, lines 115-156) applied to the
pooled embeddings, on the single-process path (the distributed backend is
inactive, so no gather happens).  The code computes
`sim = F.cosine_similarity(output1[None, :, :], output2[:, None, :], dim=2)`,
whose broadcasting gives `sim[i][j] = cos(output1[j], output2[i])`, divides by
`temp`, and applies `F.cross_entropy` against `labels = arange`. -/
noncomputable def compute_loss_simclr {N d : ℕ} (output1 output2 : Fin N → Fin d → ℝ)
    (temp : ℝ) : ℝ :=
  cross_entropy (fun i j => cosineSimilarity (output1 j) (output2 i) / temp) (fun i => i)

/-- One row of multi-class cross-entropy in log-sum-exp form, following the
spec's wording of the sentence-level loss. -/
noncomputable def spec_row_ce {n : ℕ} (logits : Fin n → ℝ) (label : Fin n) : ℝ :=
  Real.log (∑ j, Real.exp (logits j)) - logits label

/-- The sentence-level loss as the spec words it: the matrix of pairwise
cosine similarities between every anchor and every variant, divided by the
temperature, row-wise multi-class cross-entropy with column `i` as row `i`'s
positive, and the batch mean.  Rows are indexed by the variant view and
columns by the anchor view, matching the broadcast order of the code. -/
noncomputable def sentence_loss_spec {N d : ℕ} (anchors variants : Fin N → Fin d → ℝ)
    (temp : ℝ) : ℝ :=
  (∑ i, spec_row_ce (fun j => cosineSimilarity (anchors j) (variants i) / temp) i) / N

/-- One paired-position record of the token-level loss: the anchor-side and
variant-side token ids gathered by `input1[batch_idx, seq_idx1]` and
`input2[batch_idx, seq_idx2]`, and the corresponding rows of the two
projection-head outputs.  (`batch_idx` is also carried along and split by the
code but never used afterwards, so it is not recorded here.) -/
structure TokenPairRec (d : ℕ) where
  tok1 : ℕ
  tok2 : ℕ
  x1 : Fin d → ℝ
  x2 : Fin d → ℝ

/-- The flat list of paired-position records: for every example `i` of the
batch in order, one record per `(seq_idx1, seq_idx2)` entry of `pairs i`.
This is the `torch.cat` of the per-example index tensors of
src/simcse/models.py lines 194-205, followed by the four gathers. -/
noncomputable def gatherPairs {B L1 L2 d : ℕ} (input1 : Fin B → Fin L1 → ℕ)
    (input2 : Fin B → Fin L2 → ℕ) (output1 : Fin B → Fin L1 → Fin d → ℝ)
    (output2 : Fin B → Fin L2 → Fin d → ℝ)
    (pairs : Fin B → List (Fin L1 × Fin L2)) : List (TokenPairRec d) :=
  (List.finRange B).flatMap fun i =>
    (pairs i).map fun pq =>
      ⟨input1 i pq.1, input2 i pq.2, output1 i pq.1, output2 i pq.2⟩

/-- The denominator of one softmax row inside a token-id group: the sum of
exponentials of the temperature-scaled cosine similarities between every
anchor-position embedding of the group and the row's variant-position
embedding. -/
noncomputable def group_inner_sum {d : ℕ} (g : List (TokenPairRec d)) (temp : ℝ)
    (r : TokenPairRec d) : ℝ :=
  (g.map fun s => Real.exp (cosineSimilarity s.x1 r.x2 / temp)).sum

/-- The row of the within-group cross-entropy belonging to record `r`: the
diagonal label picks `r`'s own anchor/variant similarity, in the negative
log-softmax form of `F.cross_entropy`. -/
noncomputable def group_ce_row {d : ℕ} (g : List (TokenPairRec d)) (temp : ℝ)
    (r : TokenPairRec d) : ℝ :=
  -Real.log (Real.exp (cosineSimilarity r.x1 r.x2 / temp) / group_inner_sum g temp r)

/-- Model of `F.cross_entropy` of one token-id group's similarity matrix against the
diagonal labels: the mean over the group's rows. -/
noncomputable def group_cross_entropy {d : ℕ} (g : List (TokenPairRec d)) (temp : ℝ) : ℝ :=
  (g.map (group_ce_row g temp)).sum / g.length

/-- Model of `torch.split(x, counts)`: cut a list into consecutive chunks of the given
lengths. -/
def splitByCounts {α : Type*} : List ℕ → List α → List (List α)
  | [], _ => []
  | c :: cs, l => l.take c :: splitByCounts cs (l.drop c)

/-- Model of `compute_loss_simclr_token` (src/simcse/models.py, lines 159-242) on the
flat record list: assert that the gathered anchor-side and variant-side token
ids agree (`assert torch.equal(input1, input2)`), sort the records by
anchor-side token id (`torch.sort`, modelled by a stable merge sort), keep
only ids strictly below 10 (`sorted_token < 10`), split the result into one
group per distinct id (`torch.unique(..., sorted=True, return_counts=True)`
followed by `torch.split`), apply the within-group cross-entropy, and take
the mean of the stacked group losses.  `torch.stack` on the empty list of
group losses raises at runtime (as does the initial `torch.cat` when the
batch is empty), modelled as `.error .emptyGroupList`. -/
noncomputable def compute_loss_simclr_token_records {d : ℕ}
    (records : List (TokenPairRec d)) (temp : ℝ) : Except TokenLossError ℝ :=
  if records.all (fun r => r.tok1 == r.tok2) then
    let sortedRecs := records.mergeSort fun a b => decide (a.tok1 ≤ b.tok1)
    let masked := sortedRecs.filter fun r => decide (r.tok1 < 10)
    let vals := (masked.map TokenPairRec.tok1).dedup
    let counts := vals.map fun v => masked.countP fun r => r.tok1 == v
    let groups := splitByCounts counts masked
    let losses := groups.map fun g => group_cross_entropy g temp
    if losses.isEmpty then .error .emptyGroupList
    else .ok (losses.sum / losses.length)
  else .error .pairMismatch

/-- Model of `compute_loss_simclr_token` on the shaped inputs, gathering the records
exactly as lines 194-205 of src/simcse/models.py do.  The shape asserts of
lines 190-193 and 200 hold by typing. -/
noncomputable def compute_loss_simclr_token {B L1 L2 d : ℕ} (input1 : Fin B → Fin L1 → ℕ)
    (input2 : Fin B → Fin L2 → ℕ) (output1 : Fin B → Fin L1 → Fin d → ℝ)
    (output2 : Fin B → Fin L2 → Fin d → ℝ) (pairs : Fin B → List (Fin L1 × Fin L2))
    (temp : ℝ) : Except TokenLossError ℝ :=
  compute_loss_simclr_token_records (gatherPairs input1 input2 output1 output2 pairs) temp

/-- The spec's fixed cutoff: token ids must be strictly below this value to
take part in the token-alignment objective. -/
def token_cutoff : ℕ := 10

/-- Log-sum-exp form of one group row, following the spec's wording. -/
noncomputable def spec_group_ce_row {d : ℕ} (g : List (TokenPairRec d)) (temp : ℝ)
    (r : TokenPairRec d) : ℝ :=
  Real.log (group_inner_sum g temp r) - cosineSimilarity r.x1 r.x2 / temp

/-- Within-group cross-entropy in log-sum-exp form, following the spec's
wording. -/
noncomputable def spec_group_cross_entropy {d : ℕ} (g : List (TokenPairRec d))
    (temp : ℝ) : ℝ :=
  (g.map (spec_group_ce_row g temp)).sum / g.length

/-- The token-level loss as the spec words it: partition the paired-position
records of the whole batch by originating (anchor-side) token id, keep only
the ids strictly below the cutoff, compute each group's temperature-scaled
cosine cross-entropy with diagonal labels, and average across the groups. -/
noncomputable def token_loss_spec {d : ℕ} (records : List (TokenPairRec d))
    (temp : ℝ) : ℝ :=
  let vals := ((records.map TokenPairRec.tok1).dedup).filter fun v =>
    decide (v < token_cutoff)
  let groups := vals.map fun v => records.filter fun r => r.tok1 == v
  (groups.map fun g => spec_group_cross_entropy g temp).sum / groups.length

/-- Model of `cl_forward` (src/simcse/models.py, lines 289-336).  The encoder and the
MLP head are external; `token_output1` and `token_output2` stand for the two
halves of the projection-head output of `compute_representation`.  When
`pairs` is supplied, lines 299-306 gather the paired token ids of both views
and assert their equality before anything else; the sentence-level
`compute_loss_simclr` call of lines 312-322 is commented out in the source,
so the loss starts at the literal `0` and only the token-level term is ever
added (weighted by `coeff_loss_token`); when `loss_token` is set, line 325
asserts that `pairs` was supplied. -/
noncomputable def cl_forward {B L1 L2 d : ℕ} (loss_token : Bool) (coeff_loss_token temp : ℝ)
    (input1 : Fin B → Fin L1 → ℕ) (input2 : Fin B → Fin L2 → ℕ)
    (token_output1 : Fin B → Fin L1 → Fin d → ℝ)
    (token_output2 : Fin B → Fin L2 → Fin d → ℝ)
    (pairs : Option (Fin B → List (Fin L1 × Fin L2))) : Except TokenLossError ℝ :=
  match pairs with
  | some ps =>
    if (gatherPairs input1 input2 token_output1 token_output2 ps).all
        (fun r => r.tok1 == r.tok2) then
      if loss_token then
        (compute_loss_simclr_token input1 input2 token_output1 token_output2 ps temp).map
          fun l => 0 + coeff_loss_token * l
      else .ok 0
    else .error .pairMismatch
  | none =>
    if loss_token then .error .pairsMissing else .ok 0

/-- The result of a successful `Pooler.__init__`: the validated pooling-type
tag. -/
structure Pooler where
  pooler_type : String

/-- The five pooling types accepted by `Pooler.__init__`
(src/simcse/models.py, lines 35-44). -/
def pooler_types : List String :=
  ["cls", "cls_before_pooler", "avg", "avg_top2", "avg_first_last"]

/-- Model of `Pooler.__init__`: store the tag and `assert` that it is one of the five
recognized names, failing construction with a configuration error
otherwise. -/
def Pooler.init (pooler_type : String) : Except String Pooler :=
  if pooler_type ∈ pooler_types then .ok ⟨pooler_type⟩
  else .error ("unrecognized pooling type " ++ pooler_type)

/-- Model of `dist_all_gather` (src/simcse/models.py, lines 98-112): `xlist` is the
collective `all_gather` result, one same-shape tensor per rank, modelled by
the abstract family `gathered`; the local rank's entry is then overwritten
with the process's own gradient-bearing `x`, and the entries are concatenated
along the batch axis in rank order by `torch.cat`. -/
def dist_all_gather {α : Type*} {W : ℕ} (rank : Fin W) (x : List α)
    (gathered : Fin W → List α) : List α :=
  ((List.finRange W).map fun i => if i = rank then x else gathered i).flatten

/-- Anchor token ids of example 0 of the ESimCSE dataset test
(src/tests/simcse/data/test_dataset.py, lines 54-81), without the trailing
padding. -/
def esimcse_anchor0 : List ℕ := [0, 4783, 766, 16, 842, 41860, 4717, 261, 2]

/-- Variant token ids of example 0 of the ESimCSE dataset test (duplication
ratio 0.5, seed 0), without the trailing padding. -/
def esimcse_variant0 : List ℕ :=
  [0, 4783, 4783, 766, 16, 842, 842, 41860, 4717, 261, 261, 2]

/-- Anchor token ids of example 1 of the ESimCSE dataset test. -/
def esimcse_anchor1 : List ℕ := [0, 9178, 32, 47, 116, 2]

/-- Variant token ids of example 1 of the ESimCSE dataset test. -/
def esimcse_variant1 : List ℕ := [0, 9178, 32, 47, 116, 116, 2]

/-- Anchor token ids of example 2 of the ESimCSE dataset test. -/
def esimcse_anchor2 : List ℕ := [0, 118, 437, 2051, 3392, 47, 4, 8, 47, 116, 2]

/-- Variant token ids of example 2 of the ESimCSE dataset test. -/
def esimcse_variant2 : List ℕ :=
  [0, 118, 437, 2051, 2051, 3392, 47, 47, 4, 8, 47, 47, 116, 2]

/-- Strip the BOS and EOS special tokens, leaving the sub-word tokens the
repetition augmentation acts on. -/
def stripSpecials (l : List ℕ) : List ℕ := (l.drop 1).dropLast

/-- The duplication ratio used by the ESimCSE dataset test. -/
def esimcse_dup_rate : ℚ := 1/2

/-- The output length prescribed by the spec's repetition property:
`len(s) + ceil(r * len(s))`. -/
def repetition_expected_len (r : ℚ) (l : ℕ) : ℕ := l + Nat.ceil (r * l)

/-- Concrete one-dimensional unit embedding used by the concrete witnesses. -/
noncomputable def vOne : Fin 1 → ℝ := fun _ => 1

/-- Concrete one-dimensional embedding of the opposite sign. -/
noncomputable def vNegOne : Fin 1 → ℝ := fun _ => -1

/-- The negative log-softmax row equals its log-sum-exp form whenever the
denominator is positive. -/
theorem neg_log_exp_div (a : ℝ) {S : ℝ} (hS : 0 < S) :
    -Real.log (Real.exp a / S) = Real.log S - a := by
  rw [Real.log_div (Real.exp_ne_zero a) hS.ne', Real.log_exp]
  ring

/-- A `cross_entropy_row` equals the log-sum-exp form of the same row. -/
theorem cross_entropy_row_eq_spec {n : ℕ} (logits : Fin n → ℝ) (label : Fin n) :
    cross_entropy_row logits label = spec_row_ce logits label := by
  unfold cross_entropy_row spec_row_ce
  have hS : 0 < ∑ j, Real.exp (logits j) :=
    Finset.sum_pos (fun j _ => Real.exp_pos _) ⟨label, Finset.mem_univ label⟩
  exact neg_log_exp_div _ hS

/-- Claim C2: the single-process sentence-level loss `compute_loss_simclr`
equals the mean over rows of the multi-class cross-entropy (in explicit
log-sum-exp form) of the matrix of pairwise cosine similarities between every
anchor and every variant divided by the temperature, with row `i`'s positive
at column `i`. -/
theorem compute_loss_simclr_is_mean_row_ce {N d : ℕ} (output1 output2 : Fin N → Fin d → ℝ)
    (temp : ℝ) (_htemp : 0 < temp) :
    compute_loss_simclr output1 output2 temp = sentence_loss_spec output1 output2 temp := by
  unfold compute_loss_simclr cross_entropy sentence_loss_spec
  congr 1
  exact Finset.sum_congr rfl fun i _ => cross_entropy_row_eq_spec _ i

/-- Witness for C2 at a concrete batch of two all-ones embeddings and
temperature 1. -/
theorem compute_loss_simclr_is_mean_row_ce_witness :
    compute_loss_simclr (fun _ _ => (1 : ℝ) : Fin 2 → Fin 1 → ℝ) (fun _ _ => 1) 1
      = sentence_loss_spec (fun _ _ => (1 : ℝ) : Fin 2 → Fin 1 → ℝ) (fun _ _ => 1) 1 :=
  compute_loss_simclr_is_mean_row_ce (fun _ _ => 1) (fun _ _ => 1) 1 (by norm_num)

/-- Claim C8: `Pooler` construction fails with a configuration error for
every name outside the five recognized pooling types and succeeds for each of
the five; the check happens at construction, not at the first forward pass. -/
theorem pooler_init_rejects_unrecognized :
    (∀ s : String, s ∉ pooler_types →
      Pooler.init s = .error ("unrecognized pooling type " ++ s))
    ∧ ∀ s ∈ pooler_types, Pooler.init s = .ok ⟨s⟩ := by
  constructor
  · intro s hs
    simp [Pooler.init, hs]
  · intro s hs
    simp [Pooler.init, hs]

/-- Witness for C8: the unrecognized name is rejected, a recognized one is
accepted. -/
theorem pooler_init_rejects_unrecognized_witness :
    Pooler.init "max" = .error ("unrecognized pooling type " ++ "max")
    ∧ Pooler.init "cls" = .ok ⟨"cls"⟩ :=
  ⟨pooler_init_rejects_unrecognized.1 "max" (by decide),
   pooler_init_rejects_unrecognized.2 "cls" (by decide)⟩

/-- Slice `j` of the concatenation of equal-length blocks is block `j`. -/
theorem flatten_slice {α : Type*} (n : ℕ) (ls : List (List α))
    (h : ∀ l ∈ ls, l.length = n) :
    ∀ j : ℕ, j < ls.length → ((ls.flatten.drop (j * n)).take n) = ls.getD j [] := by
  induction ls with
  | nil =>
    intro j hj
    simp at hj
  | cons l ls ih =>
    intro j hj
    cases j with
    | zero =>
      simp only [List.flatten_cons, Nat.zero_mul, List.drop_zero, List.getD_cons_zero]
      rw [← h l (List.mem_cons_self l ls)]
      exact List.take_left l ls.flatten
    | succ j =>
      have hl : l.length = n := h l (List.mem_cons_self l ls)
      simp only [List.flatten_cons, List.getD_cons_succ]
      have hmul : (j + 1) * n = l.length + j * n := by
        rw [hl]
        ring
      rw [hmul, List.drop_append]
      exact ih (fun y hy => h y (List.mem_cons_of_mem _ hy)) j (by simpa using hj)

/-- Claim C7: `dist_all_gather` returns the rank-ordered concatenation of the
per-process tensors along the batch axis, and the local rank's slice is the
process's own original tensor `x`, re-substituted in place of its gathered
copy. -/
theorem dist_all_gather_rank_slices {α : Type*} {W n : ℕ} (rank : Fin W) (x : List α)
    (gathered : Fin W → List α) (hx : x.length = n)
    (hg : ∀ i, (gathered i).length = n) :
    (dist_all_gather rank x gathered).length = W * n
    ∧ ∀ j : Fin W, ((dist_all_gather rank x gathered).drop (j.val * n)).take n
        = if j = rank then x else gathered j := by
  have hparts : ∀ l ∈ (List.finRange W).map fun i => if i = rank then x else gathered i,
      l.length = n := by
    intro l hl
    rcases List.mem_map.mp hl with ⟨i, _, rfl⟩
    by_cases hi : i = rank
    · simp [hi, hx]
    · simp [hi, hg i]
  constructor
  · unfold dist_all_gather
    rw [List.length_flatten]
    have hmap : List.map List.length
        ((List.finRange W).map fun i => if i = rank then x else gathered i)
          = List.replicate W n := by
      rw [List.map_map]
      have hconst : (List.length ∘ fun i => if i = rank then x else gathered i)
          = Function.const (Fin W) n := by
        funext i
        by_cases hi : i = rank <;> simp [hi, hx, hg i, Function.const]
      rw [hconst, List.map_const, List.length_finRange]
    rw [hmap, List.sum_replicate, smul_eq_mul]
  · intro j
    unfold dist_all_gather
    have hlen : j.val < ((List.finRange W).map
        fun i => if i = rank then x else gathered i).length := by
      simp
    have hj2 : j.val < (List.finRange W).length := by
      simp
    rw [flatten_slice n _ hparts j.val hlen, List.getD_eq_getElem _ _ hlen,
      List.getElem_map]
    have hfr : (List.finRange W)[j.val] = j := by
      apply Fin.ext
      simp [List.getElem_finRange]
    rw [hfr]

/-- Witness for C7 with two ranks: the local slice is the original tensor,
the remote slice is the gathered copy. -/
theorem dist_all_gather_rank_slices_witness :
    (dist_all_gather (0 : Fin 2) [5] fun _ => [7]).length = 2 * 1
    ∧ ∀ j : Fin 2, ((dist_all_gather (0 : Fin 2) [5] fun _ => [7]).drop (j.val * 1)).take 1
        = if j = 0 then [5] else [7] :=
  dist_all_gather_rank_slices 0 [5] (fun _ => [7]) rfl fun _ => rfl

/-- The norm of the constant-one one-dimensional vector. -/
theorem l2norm_vOne : l2norm vOne = 1 := by
  unfold l2norm dot vOne
  simp [Fin.sum_univ_one]

/-- The norm of the constant-minus-one one-dimensional vector. -/
theorem l2norm_vNegOne : l2norm vNegOne = 1 := by
  unfold l2norm dot vNegOne
  simp [Fin.sum_univ_one]

/-- The epsilon guard does not disturb unit-norm vectors. -/
theorem max_one_cosEps : max (1 : ℝ) cosEps = 1 := by
  unfold cosEps
  rw [max_eq_left (by norm_num : (1e-8 : ℝ) ≤ 1)]

/-- Cosine similarity of the unit vector with itself. -/
theorem cos_vOne_vOne : cosineSimilarity vOne vOne = 1 := by
  unfold cosineSimilarity
  rw [l2norm_vOne, one_mul, max_one_cosEps]
  unfold dot vOne
  simp [Fin.sum_univ_one]

/-- Cosine similarity of the two opposite-sign unit vectors. -/
theorem cos_vOne_vNegOne : cosineSimilarity vOne vNegOne = -1 := by
  unfold cosineSimilarity
  rw [l2norm_vOne, l2norm_vNegOne, one_mul, max_one_cosEps]
  unfold dot vOne vNegOne
  simp [Fin.sum_univ_one]

/-- Cosine similarity of the two opposite-sign unit vectors, other order. -/
theorem cos_vNegOne_vOne : cosineSimilarity vNegOne vOne = -1 := by
  unfold cosineSimilarity
  rw [l2norm_vOne, l2norm_vNegOne, one_mul, max_one_cosEps]
  unfold dot vOne vNegOne
  simp [Fin.sum_univ_one]

/-- Cosine similarity of the negative unit vector with itself. -/
theorem cos_vNegOne_vNegOne : cosineSimilarity vNegOne vNegOne = 1 := by
  unfold cosineSimilarity
  rw [l2norm_vNegOne, one_mul, max_one_cosEps]
  unfold dot vNegOne
  simp [Fin.sum_univ_one]

/-- The sentence-level loss of two identical all-ones batches of size two at
temperature one is `log 2`. -/
theorem compute_loss_simclr_ones :
    compute_loss_simclr (fun _ => vOne : Fin 2 → Fin 1 → ℝ) (fun _ => vOne) 1
      = Real.log 2 := by
  unfold compute_loss_simclr cross_entropy cross_entropy_row
  simp only [cos_vOne_vOne, div_one]
  have hS : (0 : ℝ) < Real.exp 1 + Real.exp 1 := by positivity
  simp only [Fin.sum_univ_two]
  rw [neg_log_exp_div 1 hS]
  have he : Real.exp 1 + Real.exp 1 = 2 * Real.exp 1 := by ring
  rw [he, Real.log_mul (by norm_num) (Real.exp_ne_zero 1), Real.log_exp]
  ring

/-- The record list gathered from a one-example batch with a single pair. -/
theorem gatherPairs_single :
    gatherPairs (fun _ _ => 5 : Fin 1 → Fin 1 → ℕ) (fun _ _ => 5) (fun _ _ => vOne)
      (fun _ _ => vOne) (fun _ => [((0 : Fin 1), (0 : Fin 1))])
      = [⟨5, 5, vOne, vOne⟩] := rfl

/-- The token-loss pipeline on a single matching sub-cutoff record returns
that record's own-group cross-entropy. -/
theorem token_records_singleton {d : ℕ} (r : TokenPairRec d) (temp : ℝ)
    (hr : r.tok1 = r.tok2) (hlt : r.tok1 < 10) :
    compute_loss_simclr_token_records [r] temp = .ok (group_cross_entropy [r] temp) := by
  unfold compute_loss_simclr_token_records
  rw [if_pos (by simp [hr])]
  simp [List.mergeSort_singleton, hlt, splitByCounts]

/-- Claim C1 counterexample: with `loss_token` disabled, `cl_forward` returns
the literal zero and does not operate in sentence-level mode: the
sentence-level loss of the matching all-ones pooled embeddings is
`log 2 ≠ 0`, yet the returned loss is `0`. -/
theorem cl_forward_disabled_not_sentence_level :
    cl_forward false 1 1 (fun _ _ => 0) (fun _ _ => 0) (fun _ _ => vOne) (fun _ _ => vOne)
        (none : Option (Fin 2 → List (Fin 1 × Fin 1))) = .ok 0
    ∧ compute_loss_simclr (fun _ => vOne : Fin 2 → Fin 1 → ℝ) (fun _ => vOne) 1
        = Real.log 2
    ∧ Real.log 2 ≠ 0 :=
  ⟨rfl, compute_loss_simclr_ones, (Real.log_pos (by norm_num)).ne'⟩

/-- Claim C1 amended: for every batch whose token-level loss evaluates to
`t`, the forward pass with `loss_token` enabled returns the total loss
`coeff_loss_token * t` (the sentence-level term being commented out); with
`loss_token` disabled it computes no loss term at all and returns exactly
zero. -/
theorem cl_forward_total_loss {B L1 L2 d : ℕ} (coeff temp t : ℝ)
    (input1 : Fin B → Fin L1 → ℕ) (input2 : Fin B → Fin L2 → ℕ)
    (o1 : Fin B → Fin L1 → Fin d → ℝ) (o2 : Fin B → Fin L2 → Fin d → ℝ)
    (ps : Fin B → List (Fin L1 × Fin L2))
    (h : compute_loss_simclr_token input1 input2 o1 o2 ps temp = .ok t) :
    cl_forward true coeff temp input1 input2 o1 o2 (some ps) = .ok (coeff * t)
    ∧ cl_forward false coeff temp input1 input2 o1 o2 (some ps) = .ok 0 := by
  have hall : ((gatherPairs input1 input2 o1 o2 ps).all fun r => r.tok1 == r.tok2)
      = true := by
    by_contra hng
    unfold compute_loss_simclr_token compute_loss_simclr_token_records at h
    rw [if_neg hng] at h
    exact absurd h (by simp)
  constructor
  · simp [cl_forward, hall, h, Except.map]
  · simp [cl_forward, hall]

/-- Witness for C1 at a one-example batch with one sub-cutoff pair. -/
theorem cl_forward_total_loss_witness :
    cl_forward true 1 1 (fun _ _ => 5 : Fin 1 → Fin 1 → ℕ) (fun _ _ => 5)
        (fun _ _ => vOne) (fun _ _ => vOne)
        (some fun _ => [((0 : Fin 1), (0 : Fin 1))])
      = .ok (1 * group_cross_entropy [⟨5, 5, vOne, vOne⟩] 1)
    ∧ cl_forward false 1 1 (fun _ _ => 5 : Fin 1 → Fin 1 → ℕ) (fun _ _ => 5)
        (fun _ _ => vOne) (fun _ _ => vOne)
        (some fun _ => [((0 : Fin 1), (0 : Fin 1))]) = .ok 0 :=
  cl_forward_total_loss 1 1 _ _ _ _ _ _ (by
    unfold compute_loss_simclr_token
    rw [gatherPairs_single]
    exact token_records_singleton _ _ rfl (by norm_num))

/-- Claim C10: with `loss_token` disabled, `cl_forward` returns exactly zero
for every batch that reaches the loss computation (that is, any batch whose
supplied pair index set, when present, passes the pair-consistency assert of
lines 299-306); no loss term depends on the batch contents. -/
theorem cl_forward_zero_when_token_disabled {B L1 L2 d : ℕ} (coeff temp : ℝ)
    (input1 : Fin B → Fin L1 → ℕ) (input2 : Fin B → Fin L2 → ℕ)
    (o1 : Fin B → Fin L1 → Fin d → ℝ) (o2 : Fin B → Fin L2 → Fin d → ℝ)
    (pairs : Option (Fin B → List (Fin L1 × Fin L2)))
    (hp : ∀ ps, pairs = some ps →
      ((gatherPairs input1 input2 o1 o2 ps).all fun r => r.tok1 == r.tok2) = true) :
    cl_forward false coeff temp input1 input2 o1 o2 pairs = .ok 0 := by
  cases pairs with
  | none => rfl
  | some ps => simp [cl_forward, hp ps rfl]

/-- Witness for C10 at a concrete batch without pairs. -/
theorem cl_forward_zero_when_token_disabled_witness :
    cl_forward false 1 1 (fun _ _ => 0 : Fin 1 → Fin 1 → ℕ) (fun _ _ => 0)
        (fun _ _ => vOne) (fun _ _ => vOne)
        (none : Option (Fin 1 → List (Fin 1 × Fin 1))) = .ok 0 :=
  cl_forward_zero_when_token_disabled 1 1 _ _ _ _ none fun _ h => nomatch h

/-- Claim C5 counterexample: example 1 of the repository's own ESimCSE test
(ratio 0.5, seed 0) records a variant of length 7 for an anchor of length 6
(5 and 4 sub-word tokens without the BOS and EOS specials), while the spec's
formula `len(s) + ceil(r * len(s))` demands 9 (respectively 6): the recorded
augmentation output is shorter than the claimed exact length. -/
theorem esimcse_repetition_length_counterexample :
    esimcse_variant1.length
      ≠ repetition_expected_len esimcse_dup_rate esimcse_anchor1.length
    ∧ (stripSpecials esimcse_variant1).length
      ≠ repetition_expected_len esimcse_dup_rate (stripSpecials esimcse_anchor1).length := by
  have h1 : repetition_expected_len esimcse_dup_rate esimcse_anchor1.length = 9 := by
    show 6 + Nat.ceil (esimcse_dup_rate * ((6 : ℕ) : ℚ)) = 9
    norm_num [esimcse_dup_rate]
  have h2 : repetition_expected_len esimcse_dup_rate
      (stripSpecials esimcse_anchor1).length = 6 := by
    show 4 + Nat.ceil (esimcse_dup_rate * ((4 : ℕ) : ℚ)) = 6
    norm_num [esimcse_dup_rate]
  refine ⟨?_, ?_⟩
  · rw [h1]
    decide
  · rw [h2]
    decide

/-- Claim C5 amended: for every pair recorded by the repository's ESimCSE
test (ratio 0.5, seed 0), every anchor token still appears in the variant in
original relative order (the anchor is a subsequence of the variant), and the
variant's length lies between `len(s)` and `len(s) + ceil(r * len(s))`
(inclusive) rather than being exactly the upper bound. -/
theorem esimcse_repetition_bounds :
    (esimcse_anchor0.Sublist esimcse_variant0
      ∧ esimcse_anchor0.length ≤ esimcse_variant0.length
      ∧ esimcse_variant0.length
          ≤ repetition_expected_len esimcse_dup_rate esimcse_anchor0.length)
    ∧ (esimcse_anchor1.Sublist esimcse_variant1
      ∧ esimcse_anchor1.length ≤ esimcse_variant1.length
      ∧ esimcse_variant1.length
          ≤ repetition_expected_len esimcse_dup_rate esimcse_anchor1.length)
    ∧ (esimcse_anchor2.Sublist esimcse_variant2
      ∧ esimcse_anchor2.length ≤ esimcse_variant2.length
      ∧ esimcse_variant2.length
          ≤ repetition_expected_len esimcse_dup_rate esimcse_anchor2.length) := by
  have h0 : repetition_expected_len esimcse_dup_rate esimcse_anchor0.length = 14 := by
    show 9 + Nat.ceil (esimcse_dup_rate * ((9 : ℕ) : ℚ)) = 14
    have hc : Nat.ceil (esimcse_dup_rate * ((9 : ℕ) : ℚ)) = 5 := by
      rw [show esimcse_dup_rate * ((9 : ℕ) : ℚ) = 9 / 2 by norm_num [esimcse_dup_rate]]
      rw [Nat.ceil_eq_iff (by norm_num)]
      norm_num
    rw [hc]
  have h1 : repetition_expected_len esimcse_dup_rate esimcse_anchor1.length = 9 := by
    show 6 + Nat.ceil (esimcse_dup_rate * ((6 : ℕ) : ℚ)) = 9
    norm_num [esimcse_dup_rate]
  have h2 : repetition_expected_len esimcse_dup_rate esimcse_anchor2.length = 17 := by
    show 11 + Nat.ceil (esimcse_dup_rate * ((11 : ℕ) : ℚ)) = 17
    have hc : Nat.ceil (esimcse_dup_rate * ((11 : ℕ) : ℚ)) = 6 := by
      rw [show esimcse_dup_rate * ((11 : ℕ) : ℚ) = 11 / 2 by norm_num [esimcse_dup_rate]]
      rw [Nat.ceil_eq_iff (by norm_num)]
      norm_num
    rw [hc]
  refine ⟨⟨by decide, by decide, ?_⟩, ⟨by decide, by decide, ?_⟩, ⟨by decide, by decide, ?_⟩⟩
  · rw [h0]
    decide
  · rw [h1]
    decide
  · rw [h2]
    decide

/-- When the gathered token ids all match, the record-level token loss can
fail only with the empty-group error, never with the pair-mismatch one. -/
theorem token_records_no_mismatch {d : ℕ} (records : List (TokenPairRec d)) (temp : ℝ)
    (hall : (records.all fun r => r.tok1 == r.tok2) = true) :
    compute_loss_simclr_token_records records temp ≠ .error .pairMismatch := by
  unfold compute_loss_simclr_token_records
  rw [if_pos hall]
  simp [ite_eq_iff]

/-- Claim C6: a mismatch between the anchor-side and the variant-side token
id at any claimed paired position makes both the token-level loss and the
forward pass (when a pair index set is supplied) fail with the fatal
pair-consistency assertion; when all paired ids agree, that assertion error
is never raised. -/
theorem paired_token_assert_fatal {B L1 L2 d : ℕ} (coeff temp : ℝ)
    (input1 : Fin B → Fin L1 → ℕ) (input2 : Fin B → Fin L2 → ℕ)
    (o1 : Fin B → Fin L1 → Fin d → ℝ) (o2 : Fin B → Fin L2 → Fin d → ℝ)
    (ps : Fin B → List (Fin L1 × Fin L2)) :
    ((∃ r ∈ gatherPairs input1 input2 o1 o2 ps, r.tok1 ≠ r.tok2) →
      compute_loss_simclr_token input1 input2 o1 o2 ps temp = .error .pairMismatch
      ∧ ∀ lt : Bool, cl_forward lt coeff temp input1 input2 o1 o2 (some ps)
          = .error .pairMismatch)
    ∧ ((∀ r ∈ gatherPairs input1 input2 o1 o2 ps, r.tok1 = r.tok2) →
      compute_loss_simclr_token input1 input2 o1 o2 ps temp ≠ .error .pairMismatch
      ∧ ∀ lt : Bool, cl_forward lt coeff temp input1 input2 o1 o2 (some ps)
          ≠ .error .pairMismatch) := by
  constructor
  · intro hmis
    have hfalse : ((gatherPairs input1 input2 o1 o2 ps).all fun r => r.tok1 == r.tok2)
        = false := by
      obtain ⟨r, hr, hne⟩ := hmis
      rcases hb : (gatherPairs input1 input2 o1 o2 ps).all fun r => r.tok1 == r.tok2 with _ | _
      · rfl
      · exact absurd (by simpa using List.all_eq_true.mp hb r hr) hne
    constructor
    · unfold compute_loss_simclr_token compute_loss_simclr_token_records
      rw [if_neg (by simp [hfalse])]
    · intro lt
      simp [cl_forward, hfalse]
  · intro hmatch
    have hall : ((gatherPairs input1 input2 o1 o2 ps).all fun r => r.tok1 == r.tok2)
        = true := List.all_eq_true.mpr fun r hr => by simpa using hmatch r hr
    have htok : compute_loss_simclr_token input1 input2 o1 o2 ps temp
        ≠ .error .pairMismatch := token_records_no_mismatch _ temp hall
    refine ⟨htok, ?_⟩
    intro lt
    cases lt with
    | false => simp [cl_forward, hall]
    | true =>
      cases hres : compute_loss_simclr_token input1 input2 o1 o2 ps temp with
      | ok v => simp [cl_forward, hall, hres, Except.map]
      | error e =>
        have he : e ≠ .pairMismatch := by
          intro hcontra
          rw [hcontra] at hres
          exact htok hres
        simp [cl_forward, hall, hres, Except.map, he]

/-- Witness for C6: a mismatching concrete pair triggers the assertion error
in both entry points, a matching one never does. -/
theorem paired_token_assert_fatal_witness :
    (compute_loss_simclr_token (fun _ _ => 3 : Fin 1 → Fin 1 → ℕ) (fun _ _ => 4)
        (fun _ _ => vOne) (fun _ _ => vOne) (fun _ => [((0 : Fin 1), (0 : Fin 1))]) 1
      = .error .pairMismatch
    ∧ ∀ lt : Bool, cl_forward lt 1 1 (fun _ _ => 3 : Fin 1 → Fin 1 → ℕ) (fun _ _ => 4)
        (fun _ _ => vOne) (fun _ _ => vOne)
        (some fun _ => [((0 : Fin 1), (0 : Fin 1))]) = .error .pairMismatch)
    ∧ (compute_loss_simclr_token (fun _ _ => 5 : Fin 1 → Fin 1 → ℕ) (fun _ _ => 5)
        (fun _ _ => vOne) (fun _ _ => vOne) (fun _ => [((0 : Fin 1), (0 : Fin 1))]) 1
      ≠ .error .pairMismatch
    ∧ ∀ lt : Bool, cl_forward lt 1 1 (fun _ _ => 5 : Fin 1 → Fin 1 → ℕ) (fun _ _ => 5)
        (fun _ _ => vOne) (fun _ _ => vOne)
        (some fun _ => [((0 : Fin 1), (0 : Fin 1))]) ≠ .error .pairMismatch) :=
  ⟨(paired_token_assert_fatal 1 1 _ _ _ _ _).1 (by decide),
   (paired_token_assert_fatal 1 1 _ _ _ _ _).2 (by decide)⟩

/-- Claim C9 counterexample: on a batch whose only paired token id (100) is
not below the cutoff 10, every token-id group is empty and the token-level
loss raises (`torch.stack` on an empty list) instead of returning. -/
theorem token_loss_all_above_cutoff_raises :
    compute_loss_simclr_token (fun _ _ => 100 : Fin 1 → Fin 1 → ℕ) (fun _ _ => 100)
      (fun _ _ => vOne) (fun _ _ => vOne) (fun _ => [((0 : Fin 1), (0 : Fin 1))]) 1
      = .error .emptyGroupList := by
  unfold compute_loss_simclr_token
  have hg : gatherPairs (fun _ _ => 100 : Fin 1 → Fin 1 → ℕ) (fun _ _ => 100)
      (fun _ _ => vOne) (fun _ _ => vOne) (fun _ => [((0 : Fin 1), (0 : Fin 1))])
      = [⟨100, 100, vOne, vOne⟩] := rfl
  rw [hg]
  unfold compute_loss_simclr_token_records
  rw [if_pos (by decide)]
  simp [List.mergeSort_singleton, splitByCounts]

/-- Claim C9 amended: token-id groups are only ever formed from token ids
actually present among the sub-cutoff paired positions, so a token id with
zero matching pairs contributes no group and raises no error: whenever at
least one paired token id is below the cutoff the loss returns a value.  But
when no paired token id at all is below the cutoff, the group list is empty
and the computation fails instead of returning. -/
theorem token_loss_empty_groups_excluded {B L1 L2 d : ℕ} (input1 : Fin B → Fin L1 → ℕ)
    (input2 : Fin B → Fin L2 → ℕ) (o1 : Fin B → Fin L1 → Fin d → ℝ)
    (o2 : Fin B → Fin L2 → Fin d → ℝ) (ps : Fin B → List (Fin L1 × Fin L2)) (temp : ℝ)
    (hall : ((gatherPairs input1 input2 o1 o2 ps).all fun r => r.tok1 == r.tok2) = true) :
    ((∃ r ∈ gatherPairs input1 input2 o1 o2 ps, r.tok1 < token_cutoff) →
      ∃ v, compute_loss_simclr_token input1 input2 o1 o2 ps temp = .ok v)
    ∧ ((∀ r ∈ gatherPairs input1 input2 o1 o2 ps, ¬ r.tok1 < token_cutoff) →
      compute_loss_simclr_token input1 input2 o1 o2 ps temp = .error .emptyGroupList) := by
  constructor
  · intro hbelow
    obtain ⟨r, hrmem, hrlt⟩ := hbelow
    have hrs : r ∈ (gatherPairs input1 input2 o1 o2 ps).mergeSort
        fun a b => decide (a.tok1 ≤ b.tok1) :=
      (List.mergeSort_perm _ _).mem_iff.mpr hrmem
    have hrm : r ∈ ((gatherPairs input1 input2 o1 o2 ps).mergeSort
        fun a b => decide (a.tok1 ≤ b.tok1)).filter fun s => decide (s.tok1 < 10) :=
      List.mem_filter.mpr ⟨hrs, by simpa using hrlt⟩
    have hvals : ((((gatherPairs input1 input2 o1 o2 ps).mergeSort
        fun a b => decide (a.tok1 ≤ b.tok1)).filter
          fun s => decide (s.tok1 < 10)).map TokenPairRec.tok1).dedup ≠ [] := by
      rw [Ne, List.dedup_eq_nil, List.map_eq_nil_iff]
      exact List.ne_nil_of_mem hrm
    obtain ⟨v, vs, hcons⟩ := List.exists_cons_of_ne_nil hvals
    cases hres : compute_loss_simclr_token input1 input2 o1 o2 ps temp with
    | ok w => exact ⟨w, rfl⟩
    | error e =>
      unfold compute_loss_simclr_token compute_loss_simclr_token_records at hres
      rw [if_pos hall] at hres
      simp [hcons, splitByCounts] at hres
  · intro habove
    have hmask : (((gatherPairs input1 input2 o1 o2 ps).mergeSort
        fun a b => decide (a.tok1 ≤ b.tok1)).filter fun s => decide (s.tok1 < 10)) = [] :=
      List.filter_eq_nil_iff.mpr fun r hr => by
        simpa using habove r ((List.mergeSort_perm _ _).mem_iff.mp hr)
    unfold compute_loss_simclr_token compute_loss_simclr_token_records
    rw [if_pos hall]
    simp [hmask, splitByCounts]

/-- Witness for C9: the loss returns a value as soon as one paired token id
(5) is below the cutoff, and fails on the batch whose only paired id is
100. -/
theorem token_loss_empty_groups_excluded_witness :
    (∃ v, compute_loss_simclr_token (fun _ _ => 5 : Fin 1 → Fin 1 → ℕ) (fun _ _ => 5)
      (fun _ _ => vOne) (fun _ _ => vOne) (fun _ => [((0 : Fin 1), (0 : Fin 1))]) 1
        = .ok v)
    ∧ compute_loss_simclr_token (fun _ _ => 100 : Fin 1 → Fin 1 → ℕ) (fun _ _ => 100)
      (fun _ _ => vOne) (fun _ _ => vOne) (fun _ => [((0 : Fin 1), (0 : Fin 1))]) 1
        = .error .emptyGroupList :=
  ⟨(token_loss_empty_groups_excluded _ _ _ _ _ 1 (by decide)).1 (by decide),
   (token_loss_empty_groups_excluded _ _ _ _ _ 1 (by decide)).2 (by decide)⟩

/-- The sentence-level loss of the batch `(vOne, vNegOne)` against itself at
temperature one. -/
theorem compute_loss_simclr_pm :
    compute_loss_simclr ![vOne, vNegOne] ![vOne, vNegOne] 1
      = Real.log (Real.exp 1 + Real.exp (-1)) - 1 := by
  have hS : (0 : ℝ) < Real.exp 1 + Real.exp (-1) := by positivity
  have hS2 : (0 : ℝ) < Real.exp (-1) + Real.exp 1 := by positivity
  simp only [compute_loss_simclr, cross_entropy, cross_entropy_row, Fin.sum_univ_two,
    Matrix.cons_val_zero, Matrix.cons_val_one, Matrix.head_cons, div_one,
    cos_vOne_vOne, cos_vOne_vNegOne, cos_vNegOne_vOne, cos_vNegOne_vNegOne]
  rw [neg_log_exp_div 1 hS, neg_log_exp_div 1 hS2, add_comm (Real.exp (-1)) (Real.exp 1)]
  push_cast
  ring

/-- The sentence-level loss after permuting only the anchor side of the same
batch. -/
theorem compute_loss_simclr_mp :
    compute_loss_simclr ![vNegOne, vOne] ![vOne, vNegOne] 1
      = Real.log (Real.exp 1 + Real.exp (-1)) + 1 := by
  have hS : (0 : ℝ) < Real.exp 1 + Real.exp (-1) := by positivity
  have hS2 : (0 : ℝ) < Real.exp (-1) + Real.exp 1 := by positivity
  simp only [compute_loss_simclr, cross_entropy, cross_entropy_row, Fin.sum_univ_two,
    Matrix.cons_val_zero, Matrix.cons_val_one, Matrix.head_cons, div_one,
    cos_vOne_vOne, cos_vOne_vNegOne, cos_vNegOne_vOne, cos_vNegOne_vNegOne]
  rw [neg_log_exp_div (-1) hS, neg_log_exp_div (-1) hS2,
    add_comm (Real.exp (-1)) (Real.exp 1)]
  push_cast
  ring

/-- Claim C4: applying one permutation simultaneously to the anchor batch and
the variant batch leaves `compute_loss_simclr` unchanged, while permuting
only the anchor side can change the loss value. -/
theorem sentence_loss_permutation :
    (∀ (N d : ℕ) (o1 o2 : Fin N → Fin d → ℝ) (T : ℝ), 0 < T →
      ∀ σ : Equiv.Perm (Fin N),
        compute_loss_simclr (fun i => o1 (σ i)) (fun i => o2 (σ i)) T
          = compute_loss_simclr o1 o2 T)
    ∧ ∃ (N d : ℕ) (o1 o2 : Fin N → Fin d → ℝ) (T : ℝ) (σ : Equiv.Perm (Fin N)),
        0 < T ∧ compute_loss_simclr (fun i => o1 (σ i)) o2 T
          ≠ compute_loss_simclr o1 o2 T := by
  constructor
  · intro N d o1 o2 T _hT σ
    simp only [compute_loss_simclr, cross_entropy]
    congr 1
    have hrow : ∀ i : Fin N,
        cross_entropy_row (fun j => cosineSimilarity (o1 (σ j)) (o2 (σ i)) / T) i
          = cross_entropy_row (fun j => cosineSimilarity (o1 j) (o2 (σ i)) / T) (σ i) := by
      intro i
      simp only [cross_entropy_row]
      rw [Equiv.sum_comp σ fun j => Real.exp (cosineSimilarity (o1 j) (o2 (σ i)) / T)]
    calc (∑ i, cross_entropy_row (fun j => cosineSimilarity (o1 (σ j)) (o2 (σ i)) / T) i)
        = ∑ i, cross_entropy_row (fun j => cosineSimilarity (o1 j) (o2 (σ i)) / T) (σ i) :=
          Finset.sum_congr rfl fun i _ => hrow i
      _ = ∑ k, cross_entropy_row (fun j => cosineSimilarity (o1 j) (o2 k) / T) k :=
          Equiv.sum_comp σ fun k =>
            cross_entropy_row (fun j => cosineSimilarity (o1 j) (o2 k) / T) k
  · refine ⟨2, 1, ![vOne, vNegOne], ![vOne, vNegOne], 1, Equiv.swap 0 1, one_pos, ?_⟩
    have hfun : (fun i => (![vOne, vNegOne] : Fin 2 → Fin 1 → ℝ) ((Equiv.swap 0 1) i))
        = ![vNegOne, vOne] := by
      funext i
      fin_cases i <;>
        simp [Equiv.swap_apply_left, Equiv.swap_apply_right, Matrix.cons_val_zero,
          Matrix.cons_val_one, Matrix.head_cons]
    rw [hfun, compute_loss_simclr_mp, compute_loss_simclr_pm]
    intro hcontra
    linarith

/-- In a list sorted by token id whose ids all lie at or above `v`, the
records with id `v` form the prefix of length `countP`: taking that many
elements yields exactly the id-`v` records and dropping them yields exactly
the records of other ids. -/
theorem take_countP_sorted {d : ℕ} (v : ℕ) :
    ∀ l : List (TokenPairRec d),
      List.Pairwise (fun a b => a.tok1 ≤ b.tok1) l → (∀ x ∈ l, v ≤ x.tok1) →
      l.take (l.countP fun r => r.tok1 == v) = l.filter (fun r => r.tok1 == v)
      ∧ l.drop (l.countP fun r => r.tok1 == v) = l.filter fun r => ! (r.tok1 == v) := by
  intro l
  induction l with
  | nil =>
    intro _ _
    simp
  | cons x t ih =>
    intro hp hmin
    have hx : ∀ b ∈ t, x.tok1 ≤ b.tok1 := (List.pairwise_cons.mp hp).1
    have ht : List.Pairwise (fun a b : TokenPairRec d => a.tok1 ≤ b.tok1) t :=
      (List.pairwise_cons.mp hp).2
    by_cases hxv : x.tok1 = v
    · have hbeq : (x.tok1 == v) = true := by simp [hxv]
      have ihh := ih ht fun y hy => hmin y (List.mem_cons_of_mem _ hy)
      rw [@List.countP_cons_of_pos _ (fun r => r.tok1 == v) x t hbeq,
        @List.filter_cons_of_pos _ (fun r => r.tok1 == v) x t hbeq,
        @List.filter_cons_of_neg _ (fun r => ! (r.tok1 == v)) x t (by simp [hbeq])]
      exact ⟨by rw [List.take_succ_cons, ihh.1], by rw [List.drop_succ_cons, ihh.2]⟩
    · have hvlt : v < x.tok1 :=
        lt_of_le_of_ne (hmin x (List.mem_cons_self x t)) (Ne.symm hxv)
      have hall : ∀ y ∈ x :: t, ¬ (y.tok1 == v) = true := by
        intro y hy
        simp only [beq_iff_eq]
        rcases List.mem_cons.mp hy with rfl | hyt
        · exact hxv
        · intro hc
          have := hx y hyt
          omega
      have hc0 : (x :: t).countP (fun r => r.tok1 == v) = 0 :=
        List.countP_eq_zero.mpr hall
      rw [hc0]
      constructor
      · rw [List.take_zero]
        exact (List.filter_eq_nil_iff.mpr hall).symm
      · rw [List.drop_zero]
        exact (List.filter_eq_self.mpr fun y hy => by simpa using hall y hy).symm

/-- Splitting (as `torch.split` does) by the per-value counts of a sorted record list recovers
exactly the per-token-id groups, in the order of the strictly increasing
value list. -/
theorem splitByCounts_sorted_groups {d : ℕ} :
    ∀ (vs : List ℕ) (l : List (TokenPairRec d)),
      List.Pairwise (fun a b => a.tok1 ≤ b.tok1) l →
      List.Pairwise (· < ·) vs →
      (∀ x ∈ l, x.tok1 ∈ vs) →
      splitByCounts (vs.map fun v => l.countP fun r => r.tok1 == v) l
        = vs.map fun v => l.filter fun r => r.tok1 == v := by
  intro vs
  induction vs with
  | nil =>
    intro l _ _ _
    simp [splitByCounts]
  | cons v vs ih =>
    intro l hp hvs hk
    have hmin : ∀ x ∈ l, v ≤ x.tok1 := by
      intro x hx
      rcases List.mem_cons.mp (hk x hx) with h | h
      · exact h ▸ le_refl v
      · exact ((List.pairwise_cons.mp hvs).1 _ h).le
    obtain ⟨htake, hdrop⟩ := take_countP_sorted v l hp hmin
    simp only [List.map_cons, splitByCounts]
    rw [htake, hdrop]
    congr 1
    have hvne : ∀ w ∈ vs, w ≠ v := by
      intro w hw heq
      have := (List.pairwise_cons.mp hvs).1 w hw
      omega
    have hcounts : (vs.map fun w => l.countP fun r => r.tok1 == w)
        = vs.map fun w =>
            (l.filter fun r => ! (r.tok1 == v)).countP fun r => r.tok1 == w := by
      apply List.map_congr_left
      intro w hw
      rw [List.countP_filter]
      apply List.countP_congr
      intro r _
      simp only [Bool.and_eq_true, Bool.not_eq_true', beq_eq_false_iff_ne, beq_iff_eq]
      constructor
      · intro hr
        exact ⟨hr, hr ▸ hvne w hw⟩
      · intro hr
        exact hr.1
    rw [hcounts]
    rw [ih (l.filter fun r => ! (r.tok1 == v))
      (List.Pairwise.filter _ hp) (List.pairwise_cons.mp hvs).2 (by
        intro x hx
        obtain ⟨hxl, hxne⟩ := List.mem_filter.mp hx
        rcases List.mem_cons.mp (hk x hxl) with h | h
        · exact absurd h (by simpa using hxne)
        · exact h)]
    apply List.map_congr_left
    intro w hw
    rw [List.filter_filter]
    apply List.filter_congr
    intro r _
    by_cases hr : r.tok1 = w
    · simp [hr, hvne w hw]
    · simp [hr]

/-- The softmax denominator of a group row only depends on the group as a
multiset. -/
theorem group_inner_sum_perm {d : ℕ} {g h : List (TokenPairRec d)} (hgh : g.Perm h)
    (temp : ℝ) (r : TokenPairRec d) :
    group_inner_sum g temp r = group_inner_sum h temp r :=
  List.Perm.sum_eq (hgh.map _)

/-- The within-group cross-entropy only depends on the group as a multiset
(both row order and denominator order are permuted together). -/
theorem group_cross_entropy_perm {d : ℕ} {g h : List (TokenPairRec d)} (hgh : g.Perm h)
    (temp : ℝ) :
    group_cross_entropy g temp = group_cross_entropy h temp := by
  unfold group_cross_entropy
  have hrow : group_ce_row g temp = group_ce_row h temp := by
    funext r
    unfold group_ce_row
    rw [group_inner_sum_perm hgh]
  rw [hrow, List.Perm.sum_eq (hgh.map _), hgh.length_eq]

/-- On a nonempty group, the negative log-softmax cross-entropy equals its
log-sum-exp form. -/
theorem group_cross_entropy_eq_spec {d : ℕ} (g : List (TokenPairRec d)) (temp : ℝ)
    (hg : g ≠ []) :
    group_cross_entropy g temp = spec_group_cross_entropy g temp := by
  unfold group_cross_entropy spec_group_cross_entropy
  congr 1
  refine congrArg List.sum (List.map_congr_left ?_)
  intro r _
  unfold group_ce_row spec_group_ce_row
  have hS : 0 < group_inner_sum g temp r := by
    unfold group_inner_sum
    apply List.sum_pos
    · intro x hx
      obtain ⟨s, _, rfl⟩ := List.mem_map.mp hx
      exact Real.exp_pos _
    · exact fun hc => hg (List.map_eq_nil_iff.mp hc)
  exact neg_log_exp_div _ hS

/-- The modelled `torch.sort` output is sorted by anchor-side token id. -/
theorem mergeSort_tok_sorted {d : ℕ} (records : List (TokenPairRec d)) :
    List.Pairwise (fun a b : TokenPairRec d => a.tok1 ≤ b.tok1)
      (records.mergeSort fun a b => decide (a.tok1 ≤ b.tok1)) := by
  have h := @List.sorted_mergeSort (TokenPairRec d) (fun a b => decide (a.tok1 ≤ b.tok1))
    (fun a b c hab hbc => by
      simp only [decide_eq_true_eq] at hab hbc ⊢
      omega)
    (fun a b => by
      simp only [Bool.or_eq_true, decide_eq_true_eq]
      omega) records
  exact h.imp fun hab => by simpa using hab

/-- Splitting a sorted record list by the counts of its own distinct token
ids yields exactly the per-token-id groups. -/
theorem sorted_group_pipeline {d : ℕ} (m : List (TokenPairRec d))
    (hs : List.Pairwise (fun a b : TokenPairRec d => a.tok1 ≤ b.tok1) m) :
    splitByCounts (((m.map TokenPairRec.tok1).dedup).map
        fun v => m.countP fun r => r.tok1 == v) m
      = ((m.map TokenPairRec.tok1).dedup).map fun v => m.filter fun r => r.tok1 == v := by
  apply splitByCounts_sorted_groups
  · exact hs
  · have h1 : List.Pairwise (· ≤ ·) (m.map TokenPairRec.tok1) := List.pairwise_map.mpr hs
    have h2 := List.Pairwise.sublist (List.dedup_sublist _) h1
    exact (h2.and (List.nodup_dedup _)).imp fun hab => lt_of_le_of_ne hab.1 hab.2
  · intro x hx
    exact List.mem_dedup.mpr (List.mem_map.mpr ⟨x, hx, rfl⟩)

/-- The mean over the per-token-id groups of a sorted gathered list equals
the spec's partition formulation of the token-level loss on the original
record list. -/
theorem token_groups_value {d : ℕ} (m records : List (TokenPairRec d)) (temp : ℝ)
    (hmPerm : m.Perm (records.filter fun r => decide (r.tok1 < 10))) :
    ((((m.map TokenPairRec.tok1).dedup).map
        fun v => group_cross_entropy (m.filter fun r => r.tok1 == v) temp).sum
      / (((m.map TokenPairRec.tok1).dedup).map
        fun v => group_cross_entropy (m.filter fun r => r.tok1 == v) temp).length)
    = token_loss_spec records temp := by
  have hpoint : ∀ v ∈ (m.map TokenPairRec.tok1).dedup,
      group_cross_entropy (m.filter fun r => r.tok1 == v) temp
        = spec_group_cross_entropy (records.filter fun r => r.tok1 == v) temp := by
    intro v hv
    obtain ⟨x, hx, hxv⟩ := List.mem_map.mp (List.mem_dedup.mp hv)
    have hx10 : x.tok1 < 10 := by
      have := (List.mem_filter.mp (hmPerm.mem_iff.mp hx)).2
      simpa using this
    have hv10 : v < 10 := hxv ▸ hx10
    have h2 : (records.filter fun r => decide (r.tok1 < 10)).filter
        (fun r => r.tok1 == v) = records.filter fun r => r.tok1 == v := by
      rw [List.filter_filter]
      apply List.filter_congr
      intro r _
      by_cases hr : r.tok1 = v
      · simp [hr, hv10]
      · simp [hr]
    have hgperm : (m.filter fun r => r.tok1 == v).Perm
        (records.filter fun r => r.tok1 == v) := h2 ▸ hmPerm.filter fun r => r.tok1 == v
    have hne : (records.filter fun r => r.tok1 == v) ≠ [] := by
      have hxin : x ∈ m.filter fun r => r.tok1 == v :=
        List.mem_filter.mpr ⟨hx, by simp [hxv]⟩
      exact List.ne_nil_of_mem (hgperm.mem_iff.mp hxin)
    rw [group_cross_entropy_perm hgperm, group_cross_entropy_eq_spec _ _ hne]
  have hvperm : ((m.map TokenPairRec.tok1).dedup).Perm
      (((records.map TokenPairRec.tok1).dedup).filter fun v => decide (v < token_cutoff)) := by
    rw [List.perm_ext_iff_of_nodup (List.nodup_dedup _)
      (List.Nodup.filter _ (List.nodup_dedup _))]
    intro a
    simp only [List.mem_dedup, List.mem_map, List.mem_filter, hmPerm.mem_iff,
      decide_eq_true_eq, token_cutoff]
    constructor
    · rintro ⟨x, ⟨hxr, hxlt⟩, rfl⟩
      exact ⟨⟨x, hxr, rfl⟩, hxlt⟩
    · rintro ⟨⟨x, hxr, rfl⟩, hlt⟩
      exact ⟨x, ⟨hxr, hlt⟩, rfl⟩
  unfold token_loss_spec
  simp only [List.map_map, Function.comp_def, List.length_map]
  rw [List.map_congr_left hpoint]
  rw [List.Perm.sum_eq (hvperm.map fun v =>
      spec_group_cross_entropy (records.filter fun r => r.tok1 == v) temp),
    hvperm.length_eq]

/-- The record-level token loss, on matching records with at least one
sub-cutoff token id, equals the spec's partition-by-token-id loss. -/
theorem token_records_eq_spec {d : ℕ} (records : List (TokenPairRec d)) (temp : ℝ)
    (hall : (records.all fun r => r.tok1 == r.tok2) = true)
    (hbelow : ∃ r ∈ records, r.tok1 < token_cutoff) :
    compute_loss_simclr_token_records records temp = .ok (token_loss_spec records temp) := by
  have hperm := List.mergeSort_perm records fun a b => decide (a.tok1 ≤ b.tok1)
  have hmaskedSorted : List.Pairwise (fun a b : TokenPairRec d => a.tok1 ≤ b.tok1)
      ((records.mergeSort fun a b => decide (a.tok1 ≤ b.tok1)).filter
        fun r => decide (r.tok1 < 10)) :=
    List.Pairwise.filter _ (mergeSort_tok_sorted records)
  have hmaskedPerm : ((records.mergeSort fun a b => decide (a.tok1 ≤ b.tok1)).filter
      fun r => decide (r.tok1 < 10)).Perm
        (records.filter fun r => decide (r.tok1 < 10)) := hperm.filter _
  obtain ⟨r0, hr0mem, hr0lt⟩ := hbelow
  have hr0masked : r0 ∈ (records.mergeSort fun a b => decide (a.tok1 ≤ b.tok1)).filter
      fun r => decide (r.tok1 < 10) :=
    List.mem_filter.mpr ⟨hperm.mem_iff.mpr hr0mem, by simpa [token_cutoff] using hr0lt⟩
  have hvalsne : ((((records.mergeSort fun a b => decide (a.tok1 ≤ b.tok1)).filter
      fun r => decide (r.tok1 < 10)).map TokenPairRec.tok1).dedup) ≠ [] := by
    intro hc
    rw [List.dedup_eq_nil, List.map_eq_nil_iff] at hc
    rw [hc] at hr0masked
    exact List.not_mem_nil r0 hr0masked
  unfold compute_loss_simclr_token_records
  rw [if_pos hall]
  simp only []
  rw [sorted_group_pipeline _ hmaskedSorted, List.map_map]
  simp only [Function.comp_def]
  rw [if_neg fun hc => hvalsne (List.map_eq_nil_iff.mp (List.isEmpty_iff.mp hc))]
  exact congrArg Except.ok (token_groups_value _ records temp hmaskedPerm)

/-- Claim C3: the token-level loss partitions the paired-position records of
the whole batch by originating token id, keeps only ids strictly below the
fixed cutoff, computes each group's temperature-scaled cosine-similarity
cross-entropy with diagonal labels (whose rows range over the whole batch's
occurrences of that token), and returns the average over the groups. -/
theorem token_loss_grouping {B L1 L2 d : ℕ} (input1 : Fin B → Fin L1 → ℕ)
    (input2 : Fin B → Fin L2 → ℕ) (o1 : Fin B → Fin L1 → Fin d → ℝ)
    (o2 : Fin B → Fin L2 → Fin d → ℝ) (ps : Fin B → List (Fin L1 × Fin L2)) (temp : ℝ)
    (hall : ((gatherPairs input1 input2 o1 o2 ps).all fun r => r.tok1 == r.tok2) = true)
    (hbelow : ∃ r ∈ gatherPairs input1 input2 o1 o2 ps, r.tok1 < token_cutoff) :
    compute_loss_simclr_token input1 input2 o1 o2 ps temp
      = .ok (token_loss_spec (gatherPairs input1 input2 o1 o2 ps) temp) := by
  unfold compute_loss_simclr_token
  exact token_records_eq_spec _ temp hall hbelow

/-- Witness for C3 at a one-example batch with a single sub-cutoff pair. -/
theorem token_loss_grouping_witness :
    compute_loss_simclr_token (fun _ _ => 5 : Fin 1 → Fin 1 → ℕ) (fun _ _ => 5)
      (fun _ _ => vOne) (fun _ _ => vOne) (fun _ => [((0 : Fin 1), (0 : Fin 1))]) 1
      = .ok (token_loss_spec (gatherPairs (fun _ _ => 5 : Fin 1 → Fin 1 → ℕ) (fun _ _ => 5)
          (fun _ _ => vOne) (fun _ _ => vOne) (fun _ => [((0 : Fin 1), (0 : Fin 1))])) 1) :=
  token_loss_grouping _ _ _ _ _ 1 (by decide) (by decide)

/-- Witness for C4: the simultaneous swap of both sides of a concrete batch
of two leaves the loss unchanged. -/
theorem sentence_loss_permutation_witness :
    compute_loss_simclr (fun i => (![vOne, vNegOne] : Fin 2 → Fin 1 → ℝ) ((Equiv.swap 0 1) i))
        (fun i => (![vOne, vNegOne] : Fin 2 → Fin 1 → ℝ) ((Equiv.swap 0 1) i)) 1
      = compute_loss_simclr ![vOne, vNegOne] ![vOne, vNegOne] 1 :=
  sentence_loss_permutation.1 2 1 _ _ 1 one_pos (Equiv.swap 0 1)

end Clrcmd
